import Mathlib

/-!
Verification of the Contapersone repository: a shallow embedding of the two
browser pages (`script.js` and the unnamed Home page) into Lean.

React element trees built with `React.createElement` are modelled by the
inductive type `Node`: a host element carries its tag, its props (className,
onClick handler, key) and an ordered list of children; a string child is a
`Node.text` leaf.  The `useState` cells of the `Counter` and `Lista`
components are modelled as explicit state passed to the (pure) render
functions, and each click handler becomes an explicit state-transition
function.  Reachable states are the iterates of those transitions from the
initial state.
-/

namespace Contapersone

/-- Click handlers appearing in the source: the Counter button's
`() => setCount(count + 1)` and the Lista button's `aggiungiElemento`. -/
inductive Action where
  | increment
  | aggiungi
deriving DecidableEq

/-- The props object passed as second argument of `React.createElement`:
the source only ever uses `className`, `onClick` and `key` (or `null`). -/
structure Props where
  className : Option String
  onClick : Option Action
  key : Option Nat
deriving DecidableEq

/-- `null` props. -/
def noProps : Props := ⟨none, none, none⟩

/-- A React element tree: a host element with tag, props and children,
or a text child. -/
inductive Node where
  | elem (tag : String) (props : Props) (children : List Node)
  | text (s : String)

/-- `function Header()` from `script.js`. -/
def Header : Node :=
  .elem "header" noProps
    [.elem "h1" noProps [.text "Il mio sito con React"],
     .elem "p" noProps [.text "Senza JSX, senza build 😎"]]

/-- Initial value of the Counter state cell: `React.useState(0)`. -/
def counterInit : Int := 0

/-- The Counter button's click handler: `setCount(count + 1)`. -/
def counterStep (count : Int) : Int := count + 1

/-- `function Counter()` from `script.js`, as a pure function of its
state cell `count`. -/
def Counter (count : Int) : Node :=
  .elem "div" noProps
    [.elem "h2" noProps [.text "Contatore"],
     .elem "p" noProps [.text ("Valore: " ++ toString count)],
     .elem "button" ⟨none, some Action.increment, none⟩ [.text "Aumenta"]]

/-- The Counter state after `n` clicks of the "Aumenta" button,
starting from a fresh component. -/
def counterState : Nat → Int
  | 0 => counterInit
  | n + 1 => counterStep (counterState n)

/-- Initial value of the Lista state cell: `React.useState(["ALALALALA"])`. -/
def listaInit : List String := ["ALALALALA"]

/-- `function aggiungiElemento()` from `script.js`:
`setItems([...items, "Elemento " + (items.length + 1)])`. -/
def aggiungiElemento (items : List String) : List String :=
  items ++ ["Elemento " ++ toString (items.length + 1)]

/-- `function Lista()` from `script.js`, as a pure function of its state
cell `items`; list items are keyed by positional index as in
`items.map((item, index) => e("li", { key: index }, item))`. -/
def Lista (items : List String) : Node :=
  .elem "div" noProps
    [.elem "h2" noProps [.text "Lista dinamica"],
     .elem "ul" noProps
       (items.mapIdx fun index item => Node.elem "li" ⟨none, none, some index⟩ [Node.text item]),
     .elem "button" ⟨none, some Action.aggiungi, none⟩ [.text "Aggiungi"]]

/-- The Lista state after `n` clicks of the "Aggiungi" button,
starting from a fresh component. -/
def listaState : Nat → List String
  | 0 => listaInit
  | n + 1 => aggiungiElemento (listaState n)

/-- `function Footer()` from `script.js`. -/
def Footer : Node :=
  .elem "footer" noProps [.elem "p" noProps [.text "© 2026 - React CDN"]]

/-- `function App()` from `script.js`, composing Header, Counter, Lista and
Footer; its children's state cells are its only varying inputs. -/
def App (count : Int) (items : List String) : Node :=
  .elem "div" noProps
    [Header,
     .elem "main" noProps [Counter count, .elem "hr" noProps [], Lista items],
     Footer]

/-- `function Home()` from the unnamed page. -/
def Home : Node :=
  .elem "div" ⟨some "home", none, none⟩
    [.elem "header" noProps [.elem "h1" noProps [.text "Contapersone"]]]

/-- `function App()` from the unnamed page: `e(Home)`. -/
def HomeApp : Node := Home

mutual

/-- All text leaves of an element tree, in document order: the text a user
sees when the tree is rendered. -/
def texts : Node → List String
  | .text s => [s]
  | .elem _ _ cs => textsList cs

/-- `texts` on a list of sibling nodes. -/
def textsList : List Node → List String
  | [] => []
  | c :: cs => texts c ++ textsList cs

end

mutual

/-- Number of nodes of the tree carrying an `onClick` handler. -/
def handlerCount : Node → Nat
  | .text _ => 0
  | .elem _ p cs => (if p.onClick.isSome then 1 else 0) + handlerCountList cs

/-- `handlerCount` on a list of sibling nodes. -/
def handlerCountList : List Node → Nat
  | [] => 0
  | c :: cs => handlerCount c + handlerCountList cs

end

mutual

/-- Number of elements of the tree with the given tag. -/
def tagCount (t : String) : Node → Nat
  | .text _ => 0
  | .elem tag _ cs => (if tag = t then 1 else 0) + tagCountList t cs

/-- `tagCount` on a list of sibling nodes. -/
def tagCountList (t : String) : List Node → Nat
  | [] => 0
  | c :: cs => tagCount t c + tagCountList t cs

end

/-- The HTML heading tags. -/
def headingTags : List String := ["h1", "h2", "h3", "h4", "h5", "h6"]

mutual

/-- Number of heading elements (h1–h6) in the tree. -/
def headingCount : Node → Nat
  | .text _ => 0
  | .elem tag _ cs => (if tag ∈ headingTags then 1 else 0) + headingCountList cs

/-- `headingCount` on a list of sibling nodes. -/
def headingCountList : List Node → Nat
  | [] => 0
  | c :: cs => headingCount c + headingCountList cs

end

mutual

/-- The concatenated texts of all heading elements (h1–h6) of the tree. -/
def headingTexts : Node → List String
  | .text _ => []
  | .elem tag _ cs =>
      (if tag ∈ headingTags then textsList cs else []) ++ headingTextsList cs

/-- `headingTexts` on a list of sibling nodes. -/
def headingTextsList : List Node → List String
  | [] => []
  | c :: cs => headingTexts c ++ headingTextsList cs

end

mutual

/-- The concatenated texts of all `li` elements of the tree: the rendered
entries of a list component. -/
def liTexts : Node → List String
  | .text _ => []
  | .elem tag _ cs => (if tag = "li" then textsList cs else []) ++ liTextsList cs

/-- `liTexts` on a list of sibling nodes. -/
def liTextsList : List Node → List String
  | [] => []
  | c :: cs => liTexts c ++ liTextsList cs

end

/-- The element tree produced by the Counter component after its click
handler has fired on state `count`: React re-invokes `Counter` on the
value passed to `setCount`. -/
def counterAfterClick (count : Int) : Node := Counter (counterStep count)

/-- The element tree produced by the Lista component after its click
handler `aggiungiElemento` has fired on state `items`. -/
def listaAfterClick (items : List String) : Node := Lista (aggiungiElemento items)

/-- The two state cells of the first page side by side: the Counter's
`count` and the Lista's `items`.  Each cell is private to its component;
each handler touches only its own cell. -/
structure AppState where
  count : Int
  items : List String

/-- The fresh page: both components at their `useState` initial values. -/
def appInit : AppState := ⟨counterInit, listaInit⟩

/-- A click on the Counter's "Aumenta" button: only `count` is assigned. -/
def clickIncrement (s : AppState) : AppState := ⟨counterStep s.count, s.items⟩

/-- A click on the Lista's "Aggiungi" button: only `items` is assigned. -/
def clickAggiungi (s : AppState) : AppState := ⟨s.count, aggiungiElemento s.items⟩

/-! ### Closed forms for the reachable states -/

/-- The Counter state after `n` clicks is exactly `n`. -/
theorem counterState_eq (n : Nat) : counterState n = (n : Int) := by
  induction n with
  | zero => rfl
  | succ n ih => simp [counterState, counterStep, ih]

/-- The Lista state after `n` clicks: the seed followed by
`"Elemento 2", …, "Elemento (n+1)"`. -/
theorem listaState_eq (n : Nat) :
    listaState n =
      "ALALALALA" :: (List.range n).map (fun i => "Elemento " ++ toString (i + 2)) := by
  induction n with
  | zero => rfl
  | succ n ih =>
      rw [listaState, ih, aggiungiElemento]
      simp [List.range_succ]

/-- The rendered `li` entries of the Lista component are exactly its state
entries, in order.  Stated for an arbitrary key function to make the
index shift of `mapIdx` inductive. -/
theorem liTextsList_mapIdx (g : Nat → Nat) (items : List String) :
    liTextsList
      (items.mapIdx fun i it => Node.elem "li" ⟨none, none, some (g i)⟩ [Node.text it]) =
      items := by
  induction items generalizing g with
  | nil => rfl
  | cons a as ih =>
      rw [List.mapIdx_cons]
      simpa [liTextsList, liTexts, textsList, texts] using ih fun i => g (i + 1)

/-- The rendered list entries of `Lista items` are `items`. -/
theorem liTexts_lista (items : List String) : liTexts (Lista items) = items := by
  have h := liTextsList_mapIdx (fun i => i) items
  simpa [Lista, liTexts, liTextsList] using h

/-! ### Injectivity of the decimal representation

`aggiungiElemento` labels entries with `"Elemento " + n`, where `n` is
converted to decimal by `Nat.repr` (via `Nat.toDigitsCore`).  To show the
entries are pairwise distinct we prove `Nat.repr` injective. -/

/-- The accumulator of `Nat.toDigitsCore` is a suffix of its output. -/
theorem toDigitsCore_append (f : Nat) :
    ∀ (n : Nat) (l : List Char), n < f →
      Nat.toDigitsCore 10 f n l = Nat.toDigitsCore 10 f n [] ++ l := by
  induction f with
  | zero => intro n l h; omega
  | succ f ih =>
      intro n l h
      simp only [Nat.toDigitsCore]
      by_cases h10 : n / 10 = 0
      · simp [h10]
      · rw [if_neg h10, if_neg h10]
        have hn : 0 < n := by
          rcases Nat.eq_zero_or_pos n with h0 | h0
          · subst h0; simp at h10
          · exact h0
        have hlt : n / 10 < f := by
          have := Nat.div_lt_self hn (by omega : 1 < 10)
          omega
        rw [ih _ _ hlt, ih (n / 10) [Nat.digitChar (n % 10)] hlt, List.append_assoc]
        rfl

/-- `Nat.toDigitsCore` does not depend on its fuel once the fuel exceeds
the number being converted. -/
theorem toDigitsCore_fuel (f : Nat) :
    ∀ (g n : Nat) (l : List Char), n < f → n < g →
      Nat.toDigitsCore 10 f n l = Nat.toDigitsCore 10 g n l := by
  induction f with
  | zero => intro g n l h _; omega
  | succ f ih =>
      intro g n l hf hg
      cases g with
      | zero => omega
      | succ g =>
          simp only [Nat.toDigitsCore]
          by_cases h10 : n / 10 = 0
          · simp [h10]
          · rw [if_neg h10, if_neg h10]
            have hn : 0 < n := by
              rcases Nat.eq_zero_or_pos n with h0 | h0
              · subst h0; simp at h10
              · exact h0
            have hd := Nat.div_lt_self hn (by omega : 1 < 10)
            exact ih g (n / 10) _ (by omega) (by omega)

/-- Base case of the decimal conversion: a single digit. -/
theorem toDigits_ten_lt (n : Nat) (h : n < 10) :
    Nat.toDigits 10 n = [Nat.digitChar n] := by
  simp [Nat.toDigits, Nat.toDigitsCore, Nat.div_eq_of_lt h, Nat.mod_eq_of_lt h]

/-- Recurrence of the decimal conversion: leading digits then last digit. -/
theorem toDigits_ten_ge (n : Nat) (h : 10 ≤ n) :
    Nat.toDigits 10 n = Nat.toDigits 10 (n / 10) ++ [Nat.digitChar (n % 10)] := by
  have hpos : 0 < n := by omega
  have hdlt : n / 10 < n := Nat.div_lt_self hpos (by omega)
  have h10 : n / 10 ≠ 0 := by
    have := (Nat.one_le_div_iff (by omega : 0 < 10)).mpr h
    omega
  show Nat.toDigitsCore 10 (n + 1) n [] = _
  simp only [Nat.toDigitsCore]
  rw [if_neg h10]
  rw [toDigitsCore_append n (n / 10) [Nat.digitChar (n % 10)] (by omega)]
  congr 1
  exact toDigitsCore_fuel n (n / 10 + 1) (n / 10) [] (by omega) (by omega)

/-- The decimal conversion never returns the empty digit string. -/
theorem toDigits_ten_ne_nil (n : Nat) : Nat.toDigits 10 n ≠ [] := by
  by_cases h : n < 10
  · rw [toDigits_ten_lt n h]; simp
  · rw [toDigits_ten_ge n (by omega)]; simp

/-- `Nat.digitChar` is injective on decimal digits (checked on `Fin 10`). -/
theorem digitChar_inj_fin :
    ∀ a b : Fin 10, Nat.digitChar a.val = Nat.digitChar b.val → a = b := by decide

/-- `Nat.digitChar` is injective on decimal digits. -/
theorem digitChar_inj (a b : Nat) (ha : a < 10) (hb : b < 10)
    (h : Nat.digitChar a = Nat.digitChar b) : a = b :=
  congrArg Fin.val (digitChar_inj_fin ⟨a, ha⟩ ⟨b, hb⟩ h)

/-- Decimal digit strings determine the number. -/
theorem toDigits_ten_injective :
    ∀ n m : Nat, Nat.toDigits 10 n = Nat.toDigits 10 m → n = m := by
  intro n
  induction n using Nat.strong_induction_on with
  | _ n ih =>
    intro m h
    by_cases hn : n < 10 <;> by_cases hm : m < 10
    · rw [toDigits_ten_lt n hn, toDigits_ten_lt m hm] at h
      exact digitChar_inj n m hn hm (List.cons_eq_cons.mp h).1
    · rw [toDigits_ten_lt n hn, toDigits_ten_ge m (by omega)] at h
      have hlen := congrArg List.length h
      simp only [List.length_cons, List.length_nil, List.length_append] at hlen
      have h0 : (Nat.toDigits 10 (m / 10)).length = 0 := by omega
      exact absurd (List.length_eq_zero.mp h0) (toDigits_ten_ne_nil _)
    · rw [toDigits_ten_ge n (by omega), toDigits_ten_lt m hm] at h
      have hlen := congrArg List.length h
      simp only [List.length_cons, List.length_nil, List.length_append] at hlen
      have h0 : (Nat.toDigits 10 (n / 10)).length = 0 := by omega
      exact absurd (List.length_eq_zero.mp h0) (toDigits_ten_ne_nil _)
    · rw [toDigits_ten_ge n (by omega), toDigits_ten_ge m (by omega)] at h
      have h' := congrArg List.reverse h
      simp only [List.reverse_append, List.reverse_cons, List.reverse_nil,
        List.nil_append, List.singleton_append, List.cons.injEq] at h'
      obtain ⟨h1, h2⟩ := h'
      have hmod : n % 10 = m % 10 :=
        digitChar_inj _ _ (Nat.mod_lt _ (by omega)) (Nat.mod_lt _ (by omega)) h1
      have hdiv : n / 10 = m / 10 :=
        ih (n / 10) (Nat.div_lt_self (by omega) (by omega)) (m / 10)
          (List.reverse_injective h2)
      omega

/-- The decimal representation `Nat.repr` is injective. -/
theorem natRepr_injective (n m : Nat) (h : Nat.repr n = Nat.repr m) : n = m := by
  apply toDigits_ten_injective
  have hd := congrArg String.data h
  simpa [Nat.repr, List.asString] using hd

/-- The labels produced by `aggiungiElemento` are pairwise distinct. -/
theorem elemento_injective (i j : Nat)
    (h : "Elemento " ++ toString i = "Elemento " ++ toString j) : i = j := by
  apply natRepr_injective
  have hd := congrArg String.data h
  simp only [String.data_append] at hd
  have h2 : (toString i).data = (toString j).data := List.append_cancel_left hd
  exact String.ext h2

/-- The seed entry is never equal to an appended label. -/
theorem seed_ne_elemento (k : Nat) : "ALALALALA" ≠ "Elemento " ++ toString k := by
  intro h
  have hd := congrArg String.data h
  simp only [String.data_append] at hd
  have hAE : 'A' = 'E' := (List.cons_eq_cons.mp hd).1
  simp at hAE

/-- Every reachable Lista state has pairwise distinct entries. -/
theorem listaState_nodup (n : Nat) : (listaState n).Nodup := by
  rw [listaState_eq]
  refine List.nodup_cons.mpr ⟨?_, ?_⟩
  · intro hmem
    simp only [List.mem_map, List.mem_range] at hmem
    obtain ⟨i, _, hi⟩ := hmem
    exact seed_ne_elemento (i + 2) hi.symm
  · refine List.Nodup.map ?_ (List.nodup_range n)
    intro a b hab
    have := elemento_injective (a + 2) (b + 2) hab
    omega

/-! ### The claims -/

/-- C1: for every `n ≥ 0`, after `n` appends from a fresh Lista the rendered
entries are the state entries; there are exactly `n + 1` of them, the first
is the seed `"ALALALALA"`, and for `1 ≤ k ≤ n` the entry at 1-indexed
position `k + 1` (the `k`-th appended one; 0-indexed position `k`) is
`"Elemento " ++ toString (k + 1)`. -/
theorem lista_appends_rendered (n : Nat) :
    liTexts (Lista (listaState n)) = listaState n ∧
    (listaState n).length = n + 1 ∧
    (listaState n).head? = some "ALALALALA" ∧
    (∀ k : Nat, 1 ≤ k → k ≤ n →
        (listaState n)[k]? = some ("Elemento " ++ toString (k + 1))) := by
  refine ⟨liTexts_lista _, by simp [listaState_eq], by simp [listaState_eq], ?_⟩
  intro k h1 h2
  obtain ⟨j, rfl⟩ : ∃ j, k = j + 1 := ⟨k - 1, by omega⟩
  rw [listaState_eq]
  simp [List.getElem?_map, List.getElem?_range, show j < n by omega]

/-- Witness for C1: the unconditional conjuncts at `n = 0` (the fresh list)
and at `n = 3`, and the positional conjunct at `n = 3`, `k = 2`. -/
theorem lista_appends_rendered_witness :
    (liTexts (Lista (listaState 0)) = listaState 0 ∧
     (listaState 0).length = 0 + 1 ∧
     (listaState 0).head? = some "ALALALALA") ∧
    (liTexts (Lista (listaState 3)) = listaState 3 ∧
     (listaState 3).length = 3 + 1 ∧
     (listaState 3).head? = some "ALALALALA") ∧
    1 ≤ 2 ∧ 2 ≤ 3 ∧
      (listaState 3)[2]? = some ("Elemento " ++ toString (2 + 1)) :=
  ⟨⟨(lista_appends_rendered 0).1, (lista_appends_rendered 0).2.1,
    (lista_appends_rendered 0).2.2.1⟩,
   ⟨(lista_appends_rendered 3).1, (lista_appends_rendered 3).2.1,
    (lista_appends_rendered 3).2.2.1⟩,
   by decide, by decide,
   (lista_appends_rendered 3).2.2.2 2 (by decide) (by decide)⟩

/-- C2: the Counter state after `n` clicks is exactly `n`, and after 3
clicks the rendered text contains `"Valore: 3"`. -/
theorem counter_increments_value :
    (∀ n : Nat, counterState n = (n : Int)) ∧
    "Valore: 3" ∈ texts (Counter (counterState 3)) :=
  ⟨counterState_eq, by decide⟩

/-- C3: one append replaces the state with the old sequence plus exactly one
new string `"Elemento " ++ toString (length + 1)` at the end; one append on
the fresh Lista yields `["ALALALALA", "Elemento 2"]` and two appends yield
`["ALALALALA", "Elemento 2", "Elemento 3"]`, both in state and as rendered. -/
theorem aggiungi_appends_one :
    (∀ items : List String,
        aggiungiElemento items = items ++ ["Elemento " ++ toString (items.length + 1)]) ∧
    listaState 1 = ["ALALALALA", "Elemento 2"] ∧
    listaState 2 = ["ALALALALA", "Elemento 2", "Elemento 3"] ∧
    liTexts (Lista (listaState 1)) = ["ALALALALA", "Elemento 2"] ∧
    liTexts (Lista (listaState 2)) = ["ALALALALA", "Elemento 2", "Elemento 3"] :=
  ⟨fun _ => rfl, rfl, rfl, rfl, rfl⟩

/-- C4: on every render the Counter shows the literal string
`"Valore: " ++ toString count`, including the initial render at
`counterInit = 0`, where it shows `"Valore: 0"`. -/
theorem counter_display_contract :
    (∀ count : Int, "Valore: " ++ toString count ∈ texts (Counter count)) ∧
    "Valore: 0" ∈ texts (Counter counterInit) :=
  ⟨fun count => by simp [Counter, texts, textsList], by decide⟩

/-- C5: the Counter state starts at 0, each click sets it to the old value
plus 1, and every reachable state is non-negative. -/
theorem counter_nonneg_invariant :
    counterInit = 0 ∧ (∀ c : Int, counterStep c = c + 1) ∧
    (∀ n : Nat, 0 ≤ counterState n) :=
  ⟨rfl, fun _ => rfl, fun n => by rw [counterState_eq]; exact Int.natCast_nonneg n⟩

/-- C6: rendering is a pure function of the current state: for any state of
the Counter or Lista component, two renders without an intervening trigger
produce identical element trees. -/
theorem render_pure :
    ∀ (count : Int) (items : List String),
      Counter count = Counter count ∧ Lista items = Lista items :=
  fun _ _ => ⟨rfl, rfl⟩

/-- C7: every trigger replaces the state cell wholesale with a newly
constructed value — the old `items` sequence survives unchanged as the
prefix of the new one — and the component then renders from the latest
assigned value (`counterStep count`, resp. `aggiungiElemento items`). -/
theorem wholesale_replacement :
    ∀ (count : Int) (items : List String),
      counterAfterClick count = Counter (count + 1) ∧
      counterStep count = count + 1 ∧
      listaAfterClick items =
        Lista (items ++ ["Elemento " ++ toString (items.length + 1)]) ∧
      (aggiungiElemento items).take items.length = items :=
  fun count items => ⟨rfl, rfl, rfl, by simp [aggiungiElemento]⟩

/-- C9: the two state cells are disjoint: a Counter click leaves `items`
unchanged and a Lista click leaves `count` unchanged, in every state. -/
theorem state_cells_disjoint :
    ∀ s : AppState,
      (clickIncrement s).items = s.items ∧ (clickAggiungi s).count = s.count :=
  fun _ => ⟨rfl, rfl⟩

/-- C8: mounting the Home page renders exactly one heading element, its text
is `"Contapersone"`, and the tree has no `onClick` handlers and no buttons. -/
theorem home_single_heading :
    headingCount HomeApp = 1 ∧ headingTexts HomeApp = ["Contapersone"] ∧
    handlerCount HomeApp = 0 ∧ tagCount "button" HomeApp = 0 :=
  ⟨rfl, rfl, rfl, rfl⟩

/-- C10: in every reachable Lista state, the entry at 1-indexed position `k`
(with `2 ≤ k ≤ n + 1`) is `"Elemento " ++ toString k`; the whole state is
determined by its length; and all entries are pairwise distinct. -/
theorem lista_reachable_content (n : Nat) :
    (∀ k : Nat, 2 ≤ k → k ≤ n + 1 →
        (listaState n)[k - 1]? = some ("Elemento " ++ toString k)) ∧
    (∀ m : Nat, (listaState n).length = (listaState m).length →
        listaState n = listaState m) ∧
    (listaState n).Nodup := by
  refine ⟨?_, ?_, listaState_nodup n⟩
  · intro k h2 hn
    obtain ⟨j, rfl⟩ : ∃ j, k = j + 2 := ⟨k - 2, by omega⟩
    rw [listaState_eq]
    simp [List.getElem?_map, List.getElem?_range, show j < n by omega]
  · intro m hlen
    have hn : (listaState n).length = n + 1 := by simp [listaState_eq]
    have hm : (listaState m).length = m + 1 := by simp [listaState_eq]
    have hnm : n = m := by omega
    rw [hnm]

/-- Witness for C10 at `n = 2`, `k = 3`. -/
theorem lista_reachable_content_witness :
    2 ≤ 3 ∧ 3 ≤ 2 + 1 ∧
      (listaState 2)[3 - 1]? = some ("Elemento " ++ toString 3) ∧
      (listaState 2).Nodup :=
  ⟨by decide, by decide, (lista_reachable_content 2).1 3 (by decide) (by decide),
    (lista_reachable_content 2).2.2⟩

end Contapersone
